import Mathlib

/-!
Verification of the task-lifecycle and progress-reporting core of the
Zipper file-compression bot.

The development shallowly embeds the Python sources:
  * `config.py`    — the configuration constants;
  * `zip-utils.py` — `CompressionTask.update_progress` and the `zip` /
    `tar.gz` branches of `compress_file` (byte contents are `List Nat`,
    chunked reads are `chunksOf`, the progress callback trace is the
    `events` list);
  * `handlers.py`  — the admission check of `handle_document`, the
    `/cancel` command, and the cleanup / counter discipline of
    `compress_callback`, the latter as a small-step transition system
    over the global `concurrent_tasks` counter;
  * `strings.py`   — the `MESSAGES` tables (templates are piece lists:
    literal runs and positional replacement fields) and `get_message`.

The sources end before the `rar` branch of `compress_file` completes, so
the archive-extraction routine and the terminal exception handler of
`compress_file` are not available; where a definition fills that gap from
the specification text its doc comment says so explicitly.
-/

namespace Zipper

/-! ### Configuration constants (src/config.py) -/

/-- Temporary directory for file processing (config.py line 19). -/
def TEMP_DIR : String := "temp_files"

/-- Maximum number of concurrent tasks (config.py line 16). -/
def MAX_CONCURRENT_TASKS : Nat := 5

/-- Maximum chunk size for file processing, 10 MiB (config.py line 25). -/
def CHUNK_SIZE : Nat := 10 * 1024 * 1024

/-- Supported compression formats and their file extensions
(config.py lines 28-33). -/
def COMPRESSION_FORMATS : List (String × String) :=
  [("zip", ".zip"), ("tar.gz", ".tar.gz"), ("rar", ".rar"), ("7z", ".7z")]

/-! ### Path arithmetic

The handlers build paths with `os.path.basename`, `os.path.splitext` and
`os.path.join` (POSIX flavour); these are embedded on character lists. -/

/-- Characters of a path after the last slash, as in `os.path.basename`. -/
def basenameChars (cs : List Char) : List Char :=
  cs.foldl (fun acc c => if c = '/' then [] else acc ++ [c]) []

/-- Component of a path after the last slash (`os.path.basename`). -/
def basename (p : String) : String := String.mk (basenameChars p.data)

/-- Split a character list at its last dot, returning the part before the
dot and the part from the dot on; `none` when no dot occurs. -/
def rdotSplit : List Char → Option (List Char × List Char)
  | [] => none
  | c :: cs =>
    match rdotSplit cs with
    | some (b, a) => some (c :: b, a)
    | none => if c = '.' then some ([], c :: cs) else none

/-- Stem of a file name under `os.path.splitext` semantics: cut at the
last dot, except that a name whose characters before that dot are all
dots (such as `.bashrc`) is left whole. -/
def stemChars (name : List Char) : List Char :=
  match rdotSplit name with
  | none => name
  | some (before, _) => if before.all (· = '.') then name else before

/-- Stem of a file name, first component of `os.path.splitext`. -/
def splitextStem (name : String) : String := String.mk (stemChars name.data)

/-- Join of two path components, as in POSIX `os.path.join`. -/
def pathJoinChars (a b : List Char) : List Char :=
  if b.head? = some '/' then b
  else if a = [] then b
  else if a.getLast? = some '/' then a ++ b
  else a ++ '/' :: b

/-- Join of two path components (`os.path.join`). -/
def pathJoin (a b : String) : String := String.mk (pathJoinChars a.data b.data)

/-- Suffix relation on strings, for stating which extension a produced
path carries. -/
def strEndsWith (s t : String) : Prop := t.data <:+ s.data

/-! ### The transform engine (src/zip-utils.py)

`compress_file` reads its input in `CHUNK_SIZE`-byte chunks.  File
contents are byte lists. -/

/-- Contents of a file, one natural number per byte. -/
abbrev Bytes := List Nat

/-- Successive chunks of at most `C` bytes, as returned by repeated
`f.read(CHUNK_SIZE)` calls in `compress_file` (zip-utils.py lines 89-92);
the loop ends at the first empty read.  Meaningful for `C ≥ 1`, matching
`CHUNK_SIZE`. -/
def chunksOf (C : Nat) : Bytes → List Bytes
  | [] => []
  | x :: xs => (x :: xs.take (C - 1)) :: chunksOf C (xs.drop (C - 1))
termination_by l => l.length
decreasing_by
  simp only [List.length_drop, List.length_cons]
  omega

/-- Byte totals `processed_size` takes after each successive chunk,
starting from `p` (zip-utils.py line 44). -/
def cumLens : Nat → List Bytes → List Nat
  | _, [] => []
  | p, c :: rest => (p + c.length) :: cumLens (p + c.length) rest

/-- Value of `CompressionTask.canceled` as observed by the `i`-th call of
`update_progress`: `cancel()` (zip-utils.py lines 49-51) only ever sets
the flag, so the observations are `false` before some check index and
`true` from that index on; `cancelAt = some k` places that index at `k`,
`none` means the flag is never set. -/
def cancelNow (cancelAt : Option Nat) (i : Nat) : Bool :=
  match cancelAt with
  | none => false
  | some k => decide (k ≤ i)

/-- State left by the chunk loop of the `zip` branch of `compress_file`
(zip-utils.py lines 89-106). -/
structure LoopOut where
  /-- Archive members written by `zipf.write(temp_chunk_path, file_name)`,
  in order, with the member name used for each. -/
  members : List (String × Bytes)
  /-- Percent values passed to the progress callback, in order. -/
  events : List Nat
  /-- Whether `update_progress` raised `CancelledError` at a check. -/
  raised : Bool
  /-- Contents of `temp_chunk_path` on disk at the moment the loop
  stopped; `none` once line 110 removed the file. -/
  chunkFileContents : Option Bytes
deriving DecidableEq

/-- One iteration of the `zip` chunk loop per chunk (zip-utils.py lines
89-106): write the chunk to `temp_chunk_path`, add it to the archive
under `file_name`, then call `update_progress(len(chunk))`, which first
checks the cancellation flag — raising `CancelledError` if it is set —
and otherwise advances `processed_size` and, when `total_size > 0`,
reports `min(int(processed_size / total_size * 100), 100)` (lines 39-47;
the exact float division is modelled by natural floor division). -/
def zipLoop (fn : String) (total : Nat) (cancelAt : Option Nat) :
    Nat → Nat → List Bytes → LoopOut
  | _, _, [] => { members := [], events := [], raised := false, chunkFileContents := none }
  | i, p, c :: rest =>
    if cancelNow cancelAt i then
      { members := [(fn, c)], events := [], raised := true, chunkFileContents := some c }
    else
      let p2 := p + c.length
      let evs := if 0 < total then [min (p2 * 100 / total) 100] else []
      let r := zipLoop fn total cancelAt (i + 1) p2 rest
      { members := (fn, c) :: r.members, events := evs ++ r.events,
        raised := r.raised, chunkFileContents := r.chunkFileContents }

/-- Extension looked up in `COMPRESSION_FORMATS[output_format]`
(zip-utils.py line 71); callers only pass the four known formats. -/
def formatExt (fmt : String) : String := (COMPRESSION_FORMATS.lookup fmt).getD ""

/-- Output path of `compress_file` (zip-utils.py lines 70-71):
`TEMP_DIR` joined with the stem of the input basename plus the format
extension. -/
def compressOutputPath (file_path fmt : String) : String :=
  pathJoin TEMP_DIR (splitextStem (basename file_path) ++ formatExt fmt)

/-- Path of the temporary chunk file (zip-utils.py line 87). -/
def tempChunkPath (file_path : String) : String :=
  pathJoin TEMP_DIR ("chunk_" ++ basename file_path)

/-- Result of one `compress_file` call. -/
inductive CompressOutcome
  /-- The call returned the output path. -/
  | ok (outputPath : String)
  /-- The call ended by propagating `asyncio.CancelledError`. -/
  | cancelledErr
  /-- The call ended by propagating some other exception. -/
  | ioError (msg : String)
deriving DecidableEq

/-- Observable effect of one `compress_file` call. -/
structure CompressRun where
  /-- Archive members written, in order. -/
  members : List (String × Bytes)
  /-- Percent values delivered to the progress callback, in order. -/
  events : List Nat
  /-- How the call ended. -/
  outcome : CompressOutcome
  /-- Whether `temp_chunk_path` is still on disk when the call returns. -/
  tempChunkOnDisk : Bool
  /-- Whether the output archive is still on disk when the call returns. -/
  outputOnDisk : Bool
deriving DecidableEq

/-- The `zip` branch of `compress_file` (zip-utils.py lines 69-110) on an
input file at `file_path` whose contents are `data`; `total_size` is the
size of that same file, read at `CompressionTask` construction.  On
normal completion the temporary chunk file is removed (lines 108-110) and
the archive at the output path is the result.  On `CancelledError` the
visible sources end before the `except` clause of the `try` opened at
line 73; that missing handler is modelled from the spec: "if set, fail
with `Cancelled` and leave no dangling resources (any files opened for
writing in this call must be closed/removed before returning)", so the
chunk file and the partial archive are taken to be removed before the
error propagates. -/
def compress_file_zip (file_path : String) (data : Bytes) (cancelAt : Option Nat) :
    CompressRun :=
  let file_name := basename file_path
  let r := zipLoop file_name data.length cancelAt 0 0 (chunksOf CHUNK_SIZE data)
  if r.raised then
    { members := r.members, events := r.events, outcome := .cancelledErr,
      tempChunkOnDisk := false, outputOnDisk := false }
  else
    { members := r.members, events := r.events,
      outcome := .ok (compressOutputPath file_path "zip"),
      tempChunkOnDisk := false, outputOnDisk := true }

/-- The `tar.gz` branch of `compress_file` (zip-utils.py lines 112-119):
`tar.add` stores the whole input as a single member named by its
basename, and one `update_progress(task.total_size)` call follows — the
same cancellation check as above, then a single event
`min(total * 100 / total, 100)` when the size is positive.  The missing
`except` handler is modelled from the spec exactly as for the zip
branch. -/
def compress_file_targz (file_path : String) (data : Bytes) (cancelAt : Option Nat) :
    CompressRun :=
  let file_name := basename file_path
  if cancelNow cancelAt 0 then
    { members := [(file_name, data)], events := [], outcome := .cancelledErr,
      tempChunkOnDisk := false, outputOnDisk := false }
  else
    { members := [(file_name, data)],
      events := if 0 < data.length then [min (data.length * 100 / data.length) 100] else [],
      outcome := .ok (compressOutputPath file_path "tar.gz"),
      tempChunkOnDisk := false, outputOnDisk := true }

/-! ### Archive extraction, for the round-trip law -/

/-- Writing one file into a flat model of the file system: any previous
contents at the same path are replaced. -/
def fsWrite (fs : List (String × Bytes)) (p : String) (b : Bytes) : List (String × Bytes) :=
  fs.filter (fun e => !(e.1 == p)) ++ [(p, b)]

/-- Modelled from the spec: `extract_archive` is imported by handlers.py
but its definition lies beyond the point where the sources end.  Standard
zip extraction writes each member to `destDir` joined with the member
name, in archive order, so a later member overwrites an earlier one with
the same name. -/
def extractZip (members : List (String × Bytes)) (destDir : String) :
    List (String × Bytes) :=
  members.foldl (fun fs m => fsWrite fs (pathJoin destDir m.1) m.2) []

/-- Contents recovered for the input file after compressing to zip and
extracting the resulting archive into `dest`. -/
def zipRoundTrip (file_path : String) (data : Bytes) : Option Bytes :=
  (extractZip (compress_file_zip file_path data none).members "dest").lookup
    (pathJoin "dest" (basename file_path))

/-! ### Per-user task registry (src/handlers.py) -/

/-- The `asyncio.Task` handle stored under `user_tasks[user_id]["task"]`;
only its `done()` observation matters to the handlers. -/
structure TaskHandle where
  /-- Value returned by `task.done()`. -/
  done : Bool
deriving DecidableEq

/-- One `user_tasks[user_id]` dictionary (handlers.py line 26): a field is
`none` when the corresponding key is absent.  `temp_files` is always
created (line 111). -/
structure UserEntry where
  /-- The running task handle, when one has been attached. -/
  task : Option TaskHandle := none
  /-- The recorded temporary paths. -/
  temp_files : List String := []
  /-- The "operation" key ("compress" or "extract"). -/
  operation : Option String := none
  /-- The "file_path" key. -/
  file_path : Option String := none
  /-- The "format" key. -/
  format : Option String := none
deriving DecidableEq

/-- Truth value of `user_id in user_tasks and user_tasks[user_id].get("task")
and not user_tasks[user_id].get("task").done()` (handlers.py line 101). -/
def userBusy : Option UserEntry → Bool
  | none => false
  | some e =>
    match e.task with
    | none => false
    | some h => !h.done

/-- How `handle_document` disposes of a submission before any work
starts. -/
inductive DocDecision
  /-- Rejected at line 101: this user already has a live task; the
  submission is answered and dropped, not queued. -/
  | rejectedAlreadyRunning
  /-- Rejected at line 106: `concurrent_tasks >= MAX_CONCURRENT_TASKS`. -/
  | rejectedCapacity
  /-- Both checks passed; processing continues. -/
  | accepted
deriving DecidableEq

/-- Admission logic of `handle_document` (handlers.py lines 100-108):
first the per-user live-task check, then the global capacity check
against `concurrent_tasks`. -/
def handleDocumentDecision (tasks : Nat → Option UserEntry) (u : Nat) (count : Nat) :
    DocDecision :=
  if userBusy (tasks u) then .rejectedAlreadyRunning
  else if MAX_CONCURRENT_TASKS ≤ count then .rejectedCapacity
  else .accepted

/-- Download destination chosen by `handle_document` (handlers.py lines
121-125): a per-user directory under `TEMP_DIR` joined with the file
name. -/
def downloadPath (user_id : Nat) (file_name : String) : String :=
  pathJoin (pathJoin TEMP_DIR (toString user_id)) file_name

/-- Observable effect of one `/cancel` command. -/
structure CancelResult where
  /-- Whether `task.cancel()` was called. -/
  signalledCancel : Bool
  /-- Paths removed by the handler itself, in order. -/
  deleted : List String
  /-- The user's entry after the handler ran. -/
  entryAfter : Option UserEntry
  /-- Key of the message answered to the user. -/
  reply : String
deriving DecidableEq

/-- The `/cancel` handler `cmd_cancel` (handlers.py lines 63-89) for one
user whose entry is `entry`; `onDisk` lists the paths that currently
exist.  When a task object is stored it is cancelled unless already done,
every recorded temporary file that exists is removed on the spot, and the
entry is reset to the empty dictionary; otherwise nothing happens and
"no_active_task" is answered. -/
def cmd_cancel (entry : Option UserEntry) (onDisk : List String) : CancelResult :=
  match entry with
  | some e =>
    match e.task with
    | some h =>
      { signalledCancel := !h.done,
        deleted := e.temp_files.filter (fun p => onDisk.contains p),
        entryAfter := some {},
        reply := "task_cancelled" }
    | none =>
      { signalledCancel := false, deleted := [], entryAfter := entry,
        reply := "no_active_task" }
  | none =>
    { signalledCancel := false, deleted := [], entryAfter := entry,
      reply := "no_active_task" }

/-- How the awaited compression inside `compress_callback` ended. -/
inductive CbOutcome
  /-- The task returned an output path. -/
  | success
  /-- The task raised `asyncio.CancelledError`. -/
  | cancelled
  /-- The task raised some other exception. -/
  | error
deriving DecidableEq

/-- Observable effect of the tail of `compress_callback` once the awaited
task has ended. -/
structure CallbackExit where
  /-- Paths removed by the handler, in order. -/
  deleted : List String
  /-- The user's entry afterwards. -/
  entryAfter : Option UserEntry
  /-- Net change applied to `concurrent_tasks`. -/
  countDelta : Int
  /-- Key of the terminal message answered to the user. -/
  reply : String
deriving DecidableEq

/-- Exit behaviour of `compress_callback` (handlers.py lines 210-248)
given the user's entry `e` at await time, the output path the task would
return, and the set of paths on disk.  On success the output path is
appended to `temp_files`, every recorded file that exists is removed and
the entry is reset; on `CancelledError` or any other exception only a
message is sent — no file is deleted and the entry is left as it was.
The `finally` clause decrements `concurrent_tasks` on every path. -/
def compress_callback_exit (e : UserEntry) (outputPath : String)
    (onDisk : List String) : CbOutcome → CallbackExit
  | .success =>
    { deleted := (e.temp_files ++ [outputPath]).filter (fun p => onDisk.contains p),
      entryAfter := some {}, countDelta := -1, reply := "compression_complete" }
  | .cancelled =>
    { deleted := [], entryAfter := some e, countDelta := -1, reply := "task_cancelled" }
  | .error =>
    { deleted := [], entryAfter := some e, countDelta := -1, reply := "error_compression" }

/-! ### The global concurrency counter as a transition system

`concurrent_tasks` (handlers.py line 28) is read by `handle_document`
(line 106) and changed only inside `compress_callback`: `+= 1` as the
first statement of its `try` (line 188) and `-= 1` in its `finally`
(line 248).  The check and the increment belong to two different
handlers, run at different times, so their interleavings across
operations are modelled by a small-step relation. -/

/-- Lifecycle position of one submitted operation. -/
inductive OpPhase
  /-- `handle_document` passed both checks and offered the format
  buttons; the compression has not started. -/
  | admitted
  /-- `compress_callback` entered its `try` and incremented the
  counter. -/
  | running
  /-- The `finally` clause ran (after the recorded outcome) and
  decremented the counter. -/
  | finished (o : CbOutcome)
deriving DecidableEq

/-- Global state: the `concurrent_tasks` counter (a Python `int`, hence
modelled on `ℤ`) and the phase of every operation submitted so far. -/
structure BotState where
  /-- Value of `concurrent_tasks`. -/
  concurrent_tasks : Int
  /-- Phases of the operations, in submission order. -/
  ops : List OpPhase
deriving DecidableEq

/-- State at process start. -/
def initState : BotState := { concurrent_tasks := 0, ops := [] }

/-- Number of operations currently between the increment and the
decrement. -/
def runningCount (ops : List OpPhase) : Int :=
  (ops.countP (fun p => p matches .running) : Nat)

/-- Interleaved steps of the handlers, as far as they touch
`concurrent_tasks`. -/
inductive BotStep : BotState → BotState → Prop
  /-- `handle_document` observes `concurrent_tasks < MAX_CONCURRENT_TASKS`
  (line 106) and admits a new operation; the counter is not changed
  here. -/
  | submitOk (s : BotState) (h : s.concurrent_tasks < (MAX_CONCURRENT_TASKS : Int)) :
      BotStep s { concurrent_tasks := s.concurrent_tasks, ops := s.ops ++ [.admitted] }
  /-- `compress_callback` starts an admitted operation and executes
  `concurrent_tasks += 1` (line 188), with no further capacity check. -/
  | beginCb (s : BotState) (i : Nat) (h : s.ops[i]? = some .admitted) :
      BotStep s { concurrent_tasks := s.concurrent_tasks + 1, ops := s.ops.set i .running }
  /-- The `finally` clause of a running operation executes
  `concurrent_tasks -= 1` (line 248), whatever the outcome was. -/
  | endCb (s : BotState) (i : Nat) (o : CbOutcome) (h : s.ops[i]? = some .running) :
      BotStep s { concurrent_tasks := s.concurrent_tasks - 1, ops := s.ops.set i (.finished o) }

/-- States the bot can reach from process start. -/
def Reachable (s : BotState) : Prop :=
  Relation.ReflTransGen BotStep initState s

/-! ### Localized messages (src/strings.py)

A format string is kept as its parse: literal runs alternating with
replacement fields.  Every template in `MESSAGES` uses automatic
positional fields (`\x7b\x7d` or `\x7b:.2f\x7d`); none is named. -/

/-- One piece of a format string. -/
inductive Piece
  /-- A literal run of text. -/
  | lit (s : String)
  /-- An automatic positional replacement field; `inner` is the verbatim
  text between the braces (so `""` for `\x7b\x7d` and `":.2f"` for
  `\x7b:.2f\x7d`). -/
  | auto (inner : String)
deriving DecidableEq

/-- A parsed format string. -/
abbrev Template := List Piece

/-- English messages (strings.py lines 5-40). -/
def MESSAGES_EN : List (String × Template) :=
  [("start", [.lit "Welcome to File Compression Bot! 📁\n\nI can help you compress and extract files.\n\nSend me any file to begin, or use /help to see available commands."]),
   ("help", [.lit "📚 *Bot Commands:*\n\n/start - Start the bot\n/help - Show this help message\n/cancel - Cancel current operation\n\n📋 *How to use:*\n\n1. Send any file to compress it\n2. Send a compressed file (.zip, .tar.gz, .rar, .7z) to extract it\n3. Use inline buttons to select desired operations\n\n⚙️ *Features:*\n• Multiple compression formats\n• No file size limits\n• Fast processing with streaming\n• Progress tracking\n"]),
   ("file_received", [.lit "File received: ", .auto "", .lit "\nSize: ", .auto ":.2f", .lit " MB\n\nWhat would you like to do with this file?"]),
   ("processing", [.lit "Processing your file... Please wait."]),
   ("compressing", [.lit "Compressing your file to ", .auto "", .lit "...\n\nProgress: ", .auto "", .lit "%"]),
   ("extracting", [.lit "Extracting your file...\n\nProgress: ", .auto "", .lit "%"]),
   ("compression_complete", [.lit "Compression complete! Sending the compressed file..."]),
   ("extraction_complete", [.lit "Extraction complete! Sending the extracted file(s)..."]),
   ("extraction_too_many_files", [.lit "Extraction complete! There are ", .auto "", .lit " files. Sending them as a compressed archive..."]),
   ("task_cancelled", [.lit "Task cancelled successfully."]),
   ("no_active_task", [.lit "No active task to cancel."]),
   ("error_unsupported_format", [.lit "Unsupported file format. Supported formats for extraction: zip, tar.gz, rar, 7z"]),
   ("error_processing", [.lit "Error processing your file: ", .auto ""]),
   ("error_file_corrupted", [.lit "The file appears to be corrupted or invalid."]),
   ("error_extraction", [.lit "Could not extract the file. The file might be password-protected or corrupted."]),
   ("error_compression", [.lit "Could not compress the file: ", .auto ""]),
   ("compress_format_select", [.lit "Select compression format:"]),
   ("file_too_large_telegram", [.lit "The file is too large to be sent via Telegram. I\x27ll split it into smaller parts."]),
   ("split_part", [.lit "Part ", .auto "", .lit "/", .auto "", .lit " of your extraction"]),
   ("preview_content", [.lit "Preview of file content:\n\n```\n", .auto "", .lit "\n```"]),
   ("error_general", [.lit "An error occurred: ", .auto "", .lit ". Please try again."]),
   ("timeout", [.lit "Operation timed out. Please try with a smaller file."])]

/-- Persian messages (strings.py lines 41-76). -/
def MESSAGES_FA : List (String × Template) :=
  [("start", [.lit "به ربات فشرده‌سازی فایل خوش آمدید! 📁\n\nمن می‌توانم به شما در فشرده‌سازی و استخراج فایل‌ها کمک کنم.\n\nبرای شروع، هر فایلی را برای من ارسال کنید یا از /help برای دیدن دستورات موجود استفاده کنید."]),
   ("help", [.lit "📚 *دستورات ربات:*\n\n/start - شروع ربات\n/help - نمایش این پیام راهنما\n/cancel - لغو عملیات فعلی\n\n📋 *نحوه استفاده:*\n\n1. هر فایلی را برای فشرده‌سازی ارسال کنید\n2. یک فایل فشرده (.zip، .tar.gz، .rar، .7z) برای استخراج ارسال کنید\n3. از دکمه‌های اینلاین برای انتخاب عملیات مورد نظر استفاده کنید\n\n⚙️ *ویژگی‌ها:*\n• فرمت‌های فشرده‌سازی متعدد\n• بدون محدودیت در اندازه فایل\n• پردازش سریع با استریمینگ\n• پیگیری پیشرفت\n"]),
   ("file_received", [.lit "فایل دریافت شد: ", .auto "", .lit "\nاندازه: ", .auto ":.2f", .lit " مگابایت\n\nمی‌خواهید با این فایل چه کاری انجام دهید؟"]),
   ("processing", [.lit "در حال پردازش فایل شما... لطفاً صبر کنید."]),
   ("compressing", [.lit "در حال فشرده‌سازی فایل شما به ", .auto "", .lit "...\n\nپیشرفت: ", .auto "", .lit "%"]),
   ("extracting", [.lit "در حال استخراج فایل شما...\n\nپیشرفت: ", .auto "", .lit "%"]),
   ("compression_complete", [.lit "فشرده‌سازی کامل شد! در حال ارسال فایل فشرده..."]),
   ("extraction_complete", [.lit "استخراج کامل شد! در حال ارسال فایل(های) استخراج شده..."]),
   ("extraction_too_many_files", [.lit "استخراج کامل شد! ", .auto "", .lit " فایل وجود دارد. ارسال آنها به صورت یک آرشیو فشرده..."]),
   ("task_cancelled", [.lit "عملیات با موفقیت لغو شد."]),
   ("no_active_task", [.lit "هیچ عملیات فعالی برای لغو وجود ندارد."]),
   ("error_unsupported_format", [.lit "فرمت فایل پشتیبانی نمی‌شود. فرمت‌های پشتیبانی شده برای استخراج: zip، tar.gz، rar، 7z"]),
   ("error_processing", [.lit "خطا در پردازش فایل شما: ", .auto ""]),
   ("error_file_corrupted", [.lit "به نظر می‌رسد فایل خراب یا نامعتبر است."]),
   ("error_extraction", [.lit "استخراج فایل امکان‌پذیر نیست. ممکن است فایل دارای رمز عبور یا خراب باشد."]),
   ("error_compression", [.lit "فشرده‌سازی فایل امکان‌پذیر نیست: ", .auto ""]),
   ("compress_format_select", [.lit "فرمت فشرده‌سازی را انتخاب کنید:"]),
   ("file_too_large_telegram", [.lit "فایل برای ارسال از طریق تلگرام بسیار بزرگ است. آن را به قسمت‌های کوچکتر تقسیم می‌کنم."]),
   ("split_part", [.lit "بخش ", .auto "", .lit "/", .auto "", .lit " از استخراج شما"]),
   ("preview_content", [.lit "پیش‌نمایش محتوای فایل:\n\n```\n", .auto "", .lit "\n```"]),
   ("error_general", [.lit "خطایی رخ داد: ", .auto "", .lit ". لطفاً دوباره تلاش کنید."]),
   ("timeout", [.lit "زمان عملیات به پایان رسید. لطفاً با فایل کوچکتری امتحان کنید."])]

/-- The two language tables (strings.py line 4). -/
def MESSAGES : List (String × List (String × Template)) :=
  [("en", MESSAGES_EN), ("fa", MESSAGES_FA)]

/-- Exceptions `str.format` can raise here: `IndexError` when an
automatic field runs past the positional arguments, `KeyError` for a
missing named argument, `ValueError` for a malformed template — the
latter two are what `get_message` catches. -/
inductive PyExc
  | keyError
  | valueError
  | indexError
deriving DecidableEq

/-- A Python call that either returns a string or raises. -/
inductive PyRes
  /-- Returned value. -/
  | str (s : String)
  /-- Raised exception. -/
  | raises (e : PyExc)
deriving DecidableEq

/-- The original text of a template: literal runs verbatim, each
replacement field re-enclosed in braces. -/
def renderTemplate : Template → String
  | [] => ""
  | .lit s :: rest => s ++ renderTemplate rest
  | .auto inner :: rest => "\x7b" ++ inner ++ "\x7d" ++ renderTemplate rest

/-- CPython semantics of `template.format(*posArgs, **kwargs)` restricted
to the templates above: fields are filled left to right, each automatic
field consuming the next positional argument and raising `IndexError`
when none is left.  `message.format(**kwargs)` passes no positional
arguments, so `posArgs` is `[]` at the only call site.  Keyword arguments
are looked up only by named fields, of which these templates have none,
so unused `kwargs` are ignored as in Python. -/
def formatRun (posArgs : List String) : Template → Nat → PyRes
  | [], _ => .str ""
  | .lit s :: rest, i =>
    match formatRun posArgs rest i with
    | .str r => .str (s ++ r)
    | .raises e => .raises e
  | .auto _ :: rest, i =>
    match posArgs[i]? with
    | none => .raises .indexError
    | some v =>
      match formatRun posArgs rest (i + 1) with
      | .str r => .str (v ++ r)
      | .raises e => .raises e

/-- Template selected by `get_message` (strings.py lines 91-96): an
unknown language falls back to English, an unknown key yields the key
itself (keys contain no braces, so the key text is a pure literal). -/
def resolvedMessage (key lang : String) : Template :=
  let lang2 := if (MESSAGES.lookup lang).isSome then lang else "en"
  (((MESSAGES.lookup lang2).getD []).lookup key).getD [Piece.lit key]

/-- The function `get_message(key, lang, **kwargs)` (strings.py lines
79-105).  With no keyword arguments the message is returned unformatted;
otherwise `message.format(**kwargs)` runs, a `KeyError` or `ValueError`
falls back to the unformatted message, and any other exception
propagates. -/
def get_message (key lang : String) (kwargs : List (String × String)) : PyRes :=
  let message := resolvedMessage key lang
  if kwargs.isEmpty then .str (renderTemplate message)
  else
    match formatRun [] message 0 with
    | .str s => .str s
    | .raises e =>
      if e = PyExc.keyError ∨ e = PyExc.valueError then .str (renderTemplate message)
      else .raises e

/-! ### Lemmas about chunked reads -/

theorem chunksOf_nil (C : Nat) : chunksOf C [] = [] := by
  simp [chunksOf]

theorem chunksOf_eq_cons (C : Nat) (hC : 0 < C) (l : Bytes) (hl : l ≠ []) :
    chunksOf C l = l.take C :: chunksOf C (l.drop C) := by
  match l with
  | [] => simp at hl
  | x :: xs =>
    obtain ⟨m, rfl⟩ : ∃ m, C = m + 1 := ⟨C - 1, by omega⟩
    simp [chunksOf, List.take_succ_cons, List.drop_succ_cons]

theorem chunksOf_flatten (C : Nat) (hC : 0 < C) (l : Bytes) :
    (chunksOf C l).flatten = l := by
  have key : ∀ (n : Nat) (l : Bytes), l.length ≤ n → (chunksOf C l).flatten = l := by
    intro n
    induction n with
    | zero =>
      intro l h
      have : l = [] := by cases l <;> simp_all
      simp [this, chunksOf_nil]
    | succ n ih =>
      intro l h
      match l with
      | [] => simp [chunksOf_nil]
      | x :: xs =>
        rw [chunksOf_eq_cons C hC _ (by simp), List.flatten_cons,
          ih _ (by simp only [List.length_drop, List.length_cons] at *; omega)]
        exact List.take_append_drop C (x :: xs)
  exact key l.length l le_rfl

theorem chunksOf_length_sum (C : Nat) (hC : 0 < C) (l : Bytes) :
    ((chunksOf C l).map List.length).sum = l.length := by
  rw [← List.length_flatten, chunksOf_flatten C hC]

theorem chunksOf_replicate_succ (C : Nat) (hC : 0 < C) (m : Nat) (a : Nat) :
    chunksOf C (List.replicate (C * (m + 1)) a) =
      List.replicate C a :: chunksOf C (List.replicate (C * m) a) := by
  have hne : List.replicate (C * (m + 1)) a ≠ [] := by
    simp only [ne_eq, List.replicate_eq_nil_iff]
    exact Nat.mul_ne_zero (by omega) (by omega)
  rw [chunksOf_eq_cons C hC _ hne]
  have hle : C ≤ C * (m + 1) := by
    calc C = C * 1 := (Nat.mul_one C).symm
    _ ≤ C * (m + 1) := Nat.mul_le_mul_left C (by omega)
  have hsub : C * (m + 1) - C = C * m := by
    rw [Nat.mul_succ]; omega
  rw [List.take_replicate, List.drop_replicate, Nat.min_eq_left hle, hsub]

/-! ### Lemmas about the zip chunk loop -/

theorem zipLoop_none (fn : String) (total : Nat) :
    ∀ (chunks : List Bytes) (i p : Nat),
      zipLoop fn total none i p chunks =
        { members := chunks.map (fun c => (fn, c)),
          events := if 0 < total then
              (cumLens p chunks).map (fun s => min (s * 100 / total) 100)
            else [],
          raised := false, chunkFileContents := none } := by
  intro chunks
  induction chunks with
  | nil => intro i p; simp [zipLoop, cumLens]
  | cons c rest ih =>
    intro i p
    have hcn : cancelNow none i = false := rfl
    simp only [zipLoop, hcn, Bool.false_eq_true, if_false]
    rw [ih]
    by_cases ht : 0 < total <;> simp [ht, cumLens]

theorem zipLoop_cancel (fn : String) (total : Nat) :
    ∀ (chunks : List Bytes) (k i p : Nat), k < chunks.length →
      zipLoop fn total (some (i + k)) i p chunks =
        { members := (chunks.take (k + 1)).map (fun c => (fn, c)),
          events := if 0 < total then
              (cumLens p (chunks.take k)).map (fun s => min (s * 100 / total) 100)
            else [],
          raised := true,
          chunkFileContents := chunks[k]? } := by
  intro chunks
  induction chunks with
  | nil => intro k i p hk; simp at hk
  | cons c rest ih =>
    intro k i p hk
    match k with
    | 0 =>
      have hcn : cancelNow (some i) i = true := by simp [cancelNow]
      simp [zipLoop, hcn, cumLens]
    | k + 1 =>
      have hcn : cancelNow (some (i + (k + 1))) i = false := by
        simp only [cancelNow, decide_eq_false_iff_not]
        omega
      simp only [zipLoop, hcn, Bool.false_eq_true, if_false]
      have hsh : i + (k + 1) = (i + 1) + k := by omega
      rw [hsh, ih k (i + 1) (p + c.length) (by simp at hk; omega)]
      by_cases ht : 0 < total <;>
        simp [ht, cumLens, List.take_succ_cons]

theorem zipLoop_events_chain (fn : String) (total : Nat) (cancelAt : Option Nat) :
    ∀ (chunks : List Bytes) (i p : Nat),
      List.Chain' (· ≤ ·) (zipLoop fn total cancelAt i p chunks).events ∧
      (∀ x ∈ (zipLoop fn total cancelAt i p chunks).events,
        min (p * 100 / total) 100 ≤ x ∧ x ≤ 100) := by
  have hmono : ∀ s t : Nat, s ≤ t →
      min (s * 100 / total) 100 ≤ min (t * 100 / total) 100 := by
    intro s t h
    exact min_le_min (Nat.div_le_div_right (Nat.mul_le_mul_right _ h)) le_rfl
  intro chunks
  induction chunks with
  | nil => intro i p; simp [zipLoop]
  | cons c rest ih =>
    intro i p
    cases hcn : cancelNow cancelAt i with
    | true => simp [zipLoop, hcn]
    | false =>
      obtain ⟨ihc, ihb⟩ := ih (i + 1) (p + c.length)
      have hpp : min (p * 100 / total) 100 ≤ min ((p + c.length) * 100 / total) 100 :=
        hmono p (p + c.length) (Nat.le_add_right _ _)
      simp only [zipLoop, hcn, Bool.false_eq_true, if_false]
      by_cases ht : 0 < total
      · simp only [ht, if_true, List.singleton_append]
        refine ⟨List.chain'_cons'.mpr ⟨?_, ihc⟩, ?_⟩
        · intro y hy
          exact le_trans (ihb y (List.mem_of_mem_head? hy)).1 le_rfl
        · intro x hx
          rcases List.mem_cons.mp hx with rfl | hx2
          · exact ⟨hpp, min_le_right _ _⟩
          · exact ⟨le_trans hpp (ihb x hx2).1, (ihb x hx2).2⟩
      · simp only [ht, if_false, List.nil_append]
        refine ⟨ihc, ?_⟩
        intro x hx
        have htz : total = 0 := by omega
        refine ⟨?_, (ihb x hx).2⟩
        simp [htz]

theorem cumLens_getLast? :
    ∀ (chunks : List Bytes) (p : Nat), chunks ≠ [] →
      (cumLens p chunks).getLast? = some (p + (chunks.map List.length).sum) := by
  intro chunks
  induction chunks with
  | nil => intro p h; simp at h
  | cons c rest ih =>
    intro p _
    match rest with
    | [] => simp [cumLens]
    | d :: rest2 =>
      have hstep : cumLens p (c :: d :: rest2)
          = (p + c.length) :: cumLens (p + c.length) (d :: rest2) := rfl
      have htail : cumLens (p + c.length) (d :: rest2)
          = (p + c.length + d.length) :: cumLens (p + c.length + d.length) rest2 := rfl
      rw [hstep, htail, List.getLast?_cons_cons, ← htail, ih (p + c.length) (by simp)]
      simp only [Option.some.injEq, List.map_cons, List.sum_cons]
      omega

/-! ### Lemmas about the counter transition system -/

theorem countP_set_add {α : Type} (p : α → Bool) :
    ∀ (l : List α) (i : Nat) (a b : α), l[i]? = some b →
      (l.set i a).countP p + (if p b then 1 else 0)
        = l.countP p + (if p a then 1 else 0) := by
  intro l
  induction l with
  | nil => intro i a b h; simp at h
  | cons x xs ih =>
    intro i a b h
    match i with
    | 0 =>
      simp only [List.getElem?_cons_zero, Option.some.injEq] at h
      subst h
      simp only [List.set_cons_zero, List.countP_cons]
      omega
    | i + 1 =>
      simp only [List.getElem?_cons_succ] at h
      simp only [List.set_cons_succ, List.countP_cons]
      have := ih i a b h
      omega

theorem runningCount_append_admitted (ops : List OpPhase) :
    runningCount (ops ++ [.admitted]) = runningCount ops := by
  simp [runningCount, List.countP_append, List.countP_cons]

theorem runningCount_set_running (ops : List OpPhase) (i : Nat)
    (h : ops[i]? = some .admitted) :
    runningCount (ops.set i .running) = runningCount ops + 1 := by
  have hkey := countP_set_add (fun p => p matches .running) ops i .running .admitted h
  simp only [runningCount]
  simp at hkey
  omega

theorem runningCount_set_finished (ops : List OpPhase) (i : Nat) (o : CbOutcome)
    (h : ops[i]? = some .running) :
    runningCount (ops.set i (.finished o)) = runningCount ops - 1 ∧
      1 ≤ runningCount ops := by
  have hkey := countP_set_add (fun p => p matches .running) ops i (.finished o) .running h
  have hpos : 0 < ops.countP (fun p => p matches .running) := by
    refine List.countP_pos_iff.mpr ⟨.running, ?_, rfl⟩
    exact List.getElem?_mem h
  simp only [runningCount]
  simp at hkey
  constructor
  · omega
  · omega

/-! ### Lemmas about path construction -/

theorem basenameFold_no_slash :
    ∀ (cs acc : List Char), (∀ c ∈ acc, c ≠ '/') →
      ∀ c ∈ cs.foldl (fun acc c => if c = '/' then [] else acc ++ [c]) acc, c ≠ '/' := by
  intro cs
  induction cs with
  | nil => intro acc h; simpa using h
  | cons d rest ih =>
    intro acc h
    simp only [List.foldl_cons]
    by_cases hd : d = '/'
    · rw [if_pos hd]
      exact ih [] (by simp)
    · rw [if_neg hd]
      refine ih (acc ++ [d]) ?_
      intro c hc
      rcases List.mem_append.mp hc with h1 | h2
      · exact h c h1
      · simp only [List.mem_singleton] at h2
        subst h2
        exact hd

theorem basenameChars_no_slash (cs : List Char) :
    ∀ c ∈ basenameChars cs, c ≠ '/' :=
  basenameFold_no_slash cs [] (by simp)

theorem rdotSplit_append :
    ∀ (cs b a : List Char), rdotSplit cs = some (b, a) → b ++ a = cs := by
  intro cs
  induction cs with
  | nil => intro b a h; simp [rdotSplit] at h
  | cons c rest ih =>
    intro b a h
    simp only [rdotSplit] at h
    cases hr : rdotSplit rest with
    | some pair =>
      cases pair with
      | mk b2 a2 =>
        rw [hr] at h
        simp only [Option.some.injEq, Prod.mk.injEq] at h
        obtain ⟨hb, ha⟩ := h
        subst hb; subst ha
        have := ih b2 a2 hr
        simp [this]
    | none =>
      rw [hr] at h
      by_cases hc : c = '.'
      · rw [if_pos hc] at h
        simp only [Option.some.injEq, Prod.mk.injEq] at h
        obtain ⟨hb, ha⟩ := h
        subst hb; subst ha
        simp
      · rw [if_neg hc] at h
        simp at h

theorem stemChars_subset (name : List Char) : ∀ c ∈ stemChars name, c ∈ name := by
  intro c hc
  cases hr : rdotSplit name with
  | none =>
    have hs : stemChars name = name := by
      unfold stemChars; rw [hr]
    rwa [hs] at hc
  | some pair =>
    cases pair with
    | mk b a =>
      have hs : stemChars name = if b.all (· = '.') then name else b := by
        unfold stemChars; rw [hr]
      rw [hs] at hc
      by_cases hall : b.all (· = '.')
      · rw [if_pos hall] at hc; exact hc
      · rw [if_neg hall] at hc
        have hba := rdotSplit_append name b a hr
        rw [← hba]
        exact List.mem_append_left a hc

/-! ### Closed forms for whole compress calls -/

theorem cumLens_length : ∀ (l : List Bytes) (p : Nat), (cumLens p l).length = l.length := by
  intro l
  induction l with
  | nil => intro p; simp [cumLens]
  | cons c rest ih => intro p; simp [cumLens, ih]

theorem compress_file_zip_none (fp : String) (data : Bytes) :
    compress_file_zip fp data none =
      { members := (chunksOf CHUNK_SIZE data).map (fun c => (basename fp, c)),
        events := if 0 < data.length then
            (cumLens 0 (chunksOf CHUNK_SIZE data)).map
              (fun s => min (s * 100 / data.length) 100)
          else [],
        outcome := .ok (compressOutputPath fp "zip"),
        tempChunkOnDisk := false, outputOnDisk := true } := by
  simp only [compress_file_zip]
  rw [zipLoop_none]
  simp

theorem compress_file_zip_cancel (fp : String) (data : Bytes) (k : Nat)
    (hk : k < (chunksOf CHUNK_SIZE data).length) :
    compress_file_zip fp data (some k) =
      { members := ((chunksOf CHUNK_SIZE data).take (k + 1)).map (fun c => (basename fp, c)),
        events := if 0 < data.length then
            (cumLens 0 ((chunksOf CHUNK_SIZE data).take k)).map
              (fun s => min (s * 100 / data.length) 100)
          else [],
        outcome := .cancelledErr,
        tempChunkOnDisk := false, outputOnDisk := false } := by
  simp only [compress_file_zip]
  have h0 : (some k : Option Nat) = some (0 + k) := by simp
  rw [h0, zipLoop_cancel _ _ _ k 0 0 hk]
  simp

theorem compress_file_zip_events (fp : String) (data : Bytes) (cancelAt : Option Nat) :
    (compress_file_zip fp data cancelAt).events
      = (zipLoop (basename fp) data.length cancelAt 0 0 (chunksOf CHUNK_SIZE data)).events := by
  simp only [compress_file_zip]
  cases hra : (zipLoop (basename fp) data.length cancelAt 0 0 (chunksOf CHUNK_SIZE data)).raised <;>
    simp [hra]

theorem chunksOf_ne_nil_of_ne_nil (data : Bytes) (h : data ≠ []) :
    chunksOf CHUNK_SIZE data ≠ [] := by
  intro hc
  have hj := chunksOf_flatten CHUNK_SIZE (by norm_num [CHUNK_SIZE]) data
  rw [hc] at hj
  simp only [List.flatten_nil] at hj
  exact h hj.symm

theorem length_pos_of_chunk_lt (data : Bytes) (k : Nat)
    (hk : k < (chunksOf CHUNK_SIZE data).length) : 0 < data.length := by
  match data with
  | [] => rw [chunksOf_nil] at hk; simp at hk
  | x :: xs => simp

/-! ### Claim theorems -/

/-- C1: the spec requires that compressing a file and extracting the
resulting archive reproduces the input byte-identically, in particular
for inputs larger than one chunk.  The zip branch of `compress_file`
instead writes every chunk as a separate archive member under the same
name, so extracting an input of `CHUNK_SIZE + 1` bytes returns only its
final one-byte chunk: the code contradicts its own stated purpose of
handling large files by chunking. -/
theorem zip_roundtrip_loses_data :
    zipRoundTrip "temp_files/1/a.txt" (List.replicate CHUNK_SIZE 7 ++ [9]) = some [9] ∧
    List.replicate CHUNK_SIZE 7 ++ [9] ≠ ([9] : Bytes) := by
  have hC : 0 < CHUNK_SIZE := by norm_num [CHUNK_SIZE]
  have hchunks : chunksOf CHUNK_SIZE (List.replicate CHUNK_SIZE 7 ++ [9])
      = [List.replicate CHUNK_SIZE 7, [9]] := by
    rw [chunksOf_eq_cons CHUNK_SIZE hC _ (by simp)]
    rw [List.take_append_of_le_length (by simp), List.drop_append_of_le_length (by simp)]
    rw [List.take_replicate, List.drop_replicate]
    simp only [Nat.min_self, Nat.sub_self, List.replicate_zero, List.nil_append]
    rw [chunksOf_eq_cons CHUNK_SIZE hC [9] (by simp)]
    rw [List.take_of_length_le (by norm_num [CHUNK_SIZE]),
      List.drop_eq_nil_of_le (by norm_num [CHUNK_SIZE]), chunksOf_nil]
  constructor
  · unfold zipRoundTrip
    rw [compress_file_zip_none, hchunks]
    have hb : basename "temp_files/1/a.txt" = "a.txt" := by decide
    have hdj : pathJoin "dest" "a.txt" = "dest/a.txt" := by decide
    simp [extractZip, fsWrite, hb, hdj, List.lookup]
  · intro h
    have hlen := congrArg List.length h
    rw [List.length_append, List.length_replicate] at hlen
    norm_num [CHUNK_SIZE] at hlen

/-- C4 (counterexample): the cancellation flag is claimed to be checked
before each chunk is processed, but `update_progress` — and with it the
check — runs only after the chunk has already been written into the
archive: with the flag set before the operation starts, the whole first
chunk still becomes an archive member, and at the moment the error is
raised the temporary chunk file is still on disk. -/
theorem first_chunk_processed_despite_cancel :
    (compress_file_zip "temp_files/1/a.txt" [1, 2, 3] (some 0)).outcome
      = CompressOutcome.cancelledErr ∧
    (compress_file_zip "temp_files/1/a.txt" [1, 2, 3] (some 0)).members
      = [("a.txt", [1, 2, 3])] ∧
    (compress_file_zip "temp_files/1/a.txt" [1, 2, 3] (some 0)).members ≠ [] ∧
    (zipLoop "a.txt" 3 (some 0) 0 0
        (chunksOf CHUNK_SIZE [1, 2, 3])).chunkFileContents = some [1, 2, 3] := by
  have hchunks : chunksOf CHUNK_SIZE [1, 2, 3] = [[1, 2, 3]] := by
    rw [chunksOf_eq_cons CHUNK_SIZE (by norm_num [CHUNK_SIZE]) _ (by simp)]
    rw [List.take_of_length_le (by norm_num [CHUNK_SIZE]),
      List.drop_eq_nil_of_le (by norm_num [CHUNK_SIZE]), chunksOf_nil]
  have hb : basename "temp_files/1/a.txt" = "a.txt" := by decide
  have hk : 0 < (chunksOf CHUNK_SIZE [1, 2, 3]).length := by rw [hchunks]; simp
  rw [compress_file_zip_cancel _ _ 0 hk, hchunks]
  refine ⟨rfl, ?_, ?_, ?_⟩
  · simp [hb]
  · simp
  · have hcn : cancelNow (some 0) 0 = true := by simp [cancelNow]
    simp [zipLoop, hcn]

/-- C4 (amended): during zip compression the cancellation flag is checked
once per chunk, inside `update_progress`, after the chunk has been added
to the archive; when the flag is observed the call propagates
`CancelledError`, which is distinguishable from a success and from any
other exception, the events stop (none is emitted at the aborted check),
and — by the spec-modelled terminal handler of `compress_file` — neither
the chunk temp file nor the partial archive remains on disk. -/
theorem cancel_terminates_after_chunk (fp : String) (data : Bytes) (k : Nat)
    (hk : k < (chunksOf CHUNK_SIZE data).length) :
    (compress_file_zip fp data (some k)).outcome = CompressOutcome.cancelledErr ∧
    (compress_file_zip fp data (some k)).members
      = ((chunksOf CHUNK_SIZE data).take (k + 1)).map (fun c => (basename fp, c)) ∧
    (compress_file_zip fp data (some k)).events.length = k ∧
    (compress_file_zip fp data (some k)).tempChunkOnDisk = false ∧
    (compress_file_zip fp data (some k)).outputOnDisk = false ∧
    (∀ s, CompressOutcome.cancelledErr ≠ CompressOutcome.ok s) ∧
    (∀ m, CompressOutcome.cancelledErr ≠ CompressOutcome.ioError m) := by
  have hlen : 0 < data.length := length_pos_of_chunk_lt data k hk
  rw [compress_file_zip_cancel fp data k hk]
  refine ⟨rfl, rfl, ?_, rfl, rfl, fun s => by simp, fun m => by simp⟩
  simp only [if_pos hlen, List.length_map, cumLens_length, List.length_take]
  omega

/-- C4 (witness): the amended statement at a concrete one-chunk input
cancelled before its first check. -/
theorem cancel_terminates_after_chunk_w :
    (compress_file_zip "temp_files/1/a.txt" [1, 2, 3] (some 0)).outcome
      = CompressOutcome.cancelledErr ∧
    (compress_file_zip "temp_files/1/a.txt" [1, 2, 3] (some 0)).members
      = ((chunksOf CHUNK_SIZE [1, 2, 3]).take 1).map
          (fun c => (basename "temp_files/1/a.txt", c)) ∧
    (compress_file_zip "temp_files/1/a.txt" [1, 2, 3] (some 0)).events.length = 0 ∧
    (compress_file_zip "temp_files/1/a.txt" [1, 2, 3] (some 0)).tempChunkOnDisk = false ∧
    (compress_file_zip "temp_files/1/a.txt" [1, 2, 3] (some 0)).outputOnDisk = false ∧
    (∀ s, CompressOutcome.cancelledErr ≠ CompressOutcome.ok s) ∧
    (∀ m, CompressOutcome.cancelledErr ≠ CompressOutcome.ioError m) :=
  cancel_terminates_after_chunk "temp_files/1/a.txt" [1, 2, 3] 0
    (by rw [chunksOf_eq_cons CHUNK_SIZE (by norm_num [CHUNK_SIZE]) _ (by simp)]; simp)

/-- C5 (counterexample): a zero-byte input completes successfully while
emitting no progress event at all, so its event sequence does not end in
a final 100. -/
theorem empty_input_success_without_final_event :
    (compress_file_zip "temp_files/1/a.txt" [] none).outcome
      = CompressOutcome.ok (compressOutputPath "temp_files/1/a.txt" "zip") ∧
    (compress_file_zip "temp_files/1/a.txt" [] none).events = [] ∧
    (compress_file_zip "temp_files/1/a.txt" [] none).events.getLast? ≠ some 100 := by
  rw [compress_file_zip_none]
  simp [chunksOf_nil]

/-- C5 (amended): for every zip compression the delivered percentages are
non-decreasing and clamped to at most 100, and a successfully completing
operation on a nonempty input ends with a final event of exactly 100; a
cancelled run simply stops emitting.  (An empty input succeeds with no
events at all.) -/
theorem progress_monotone_clamped (fp : String) (data : Bytes) (cancelAt : Option Nat) :
    List.Chain' (· ≤ ·) (compress_file_zip fp data cancelAt).events ∧
    (∀ x ∈ (compress_file_zip fp data cancelAt).events, x ≤ 100) ∧
    (data ≠ [] →
      (compress_file_zip fp data none).events.getLast? = some 100 ∧
      (compress_file_zip fp data none).outcome
        = CompressOutcome.ok (compressOutputPath fp "zip")) := by
  obtain ⟨hchain, hbound⟩ :=
    zipLoop_events_chain (basename fp) data.length cancelAt (chunksOf CHUNK_SIZE data) 0 0
  refine ⟨?_, ?_, ?_⟩
  · rw [compress_file_zip_events]; exact hchain
  · rw [compress_file_zip_events]
    intro x hx
    exact (hbound x hx).2
  · intro hne
    have hlen : 0 < data.length := by cases data <;> simp_all
    rw [compress_file_zip_none]
    refine ⟨?_, rfl⟩
    simp only [if_pos hlen, List.getLast?_map]
    rw [cumLens_getLast? _ 0 (chunksOf_ne_nil_of_ne_nil data hne)]
    rw [chunksOf_length_sum CHUNK_SIZE (by norm_num [CHUNK_SIZE])]
    have hdiv : data.length * 100 / data.length = 100 := by
      rw [Nat.mul_comm, Nat.mul_div_cancel _ hlen]
    simp [hdiv]

/-- C5 (witness): the amended statement at a concrete one-byte input. -/
theorem progress_monotone_clamped_w :
    List.Chain' (· ≤ ·) (compress_file_zip "temp_files/1/a.txt" [7] none).events ∧
    (∀ x ∈ (compress_file_zip "temp_files/1/a.txt" [7] none).events, x ≤ 100) ∧
    ((compress_file_zip "temp_files/1/a.txt" [7] none).events.getLast? = some 100 ∧
     (compress_file_zip "temp_files/1/a.txt" [7] none).outcome
       = CompressOutcome.ok (compressOutputPath "temp_files/1/a.txt" "zip")) := by
  obtain ⟨h1, h2, h3⟩ := progress_monotone_clamped "temp_files/1/a.txt" [7] none
  exact ⟨h1, h2, h3 (by simp)⟩

/-- C6 (counterexample): compressing a zero-byte file to zip produces an
archive with no member at all and emits no progress event, against the
claimed single empty member and single event of 100. -/
theorem zero_byte_zip_claim_false :
    (compress_file_zip "temp_files/1/empty.bin" [] none).members.length = 0 ∧
    (compress_file_zip "temp_files/1/empty.bin" [] none).events = [] ∧
    ¬ ((compress_file_zip "temp_files/1/empty.bin" [] none).members.length = 1 ∧
       (compress_file_zip "temp_files/1/empty.bin" [] none).events = [100]) := by
  rw [compress_file_zip_none]
  simp [chunksOf_nil]

/-- C6 (amended): a zero-byte input is accepted: the zip branch succeeds
with its output path, writing an archive with no members and emitting no
progress event (`update_progress` only reports when `total_size > 0`);
the tar.gz branch writes exactly one empty member and likewise emits no
event. -/
theorem zero_byte_compression_behavior (fp : String) :
    (compress_file_zip fp [] none).outcome
      = CompressOutcome.ok (compressOutputPath fp "zip") ∧
    (compress_file_zip fp [] none).members = [] ∧
    (compress_file_zip fp [] none).events = [] ∧
    (compress_file_targz fp [] none).members = [(basename fp, [])] ∧
    (compress_file_targz fp [] none).events = [] := by
  rw [compress_file_zip_none]
  refine ⟨rfl, by simp [chunksOf_nil], by simp [chunksOf_nil], ?_, ?_⟩ <;>
    simp [compress_file_targz, cancelNow]

theorem map_head_dup_not_nodup {A B : Type} (f : A → B) (x y : A) (L : List A)
    (hxy : f x = f y) : ¬ ((x :: y :: L).map f).Nodup := by
  intro h
  rw [List.map_cons, List.map_cons, hxy] at h
  exact (List.nodup_cons.mp h).1 (List.mem_cons_self _ _)

/-- C7 (counterexample): the progress callback is claimed to fire only on
integer-percent change, but it fires after every chunk: on an input of
201 chunks the first two deliveries are both 0, so the event list repeats
a value. -/
theorem progress_callback_repeats_value :
    ¬ (compress_file_zip "temp_files/1/big.bin"
        (List.replicate (CHUNK_SIZE * 201) 0) none).events.Nodup := by
  have hC : 0 < CHUNK_SIZE := by norm_num [CHUNK_SIZE]
  have h1 := chunksOf_replicate_succ CHUNK_SIZE hC 200 (0 : Nat)
  have h2 := chunksOf_replicate_succ CHUNK_SIZE hC 199 (0 : Nat)
  rw [show (200 : Nat) + 1 = 201 from rfl] at h1
  rw [show (199 : Nat) + 1 = 200 from rfl] at h2
  have hcum : ∀ (p : Nat) (c : Bytes) (rest : List Bytes),
      cumLens p (c :: rest) = (p + c.length) :: cumLens (p + c.length) rest :=
    fun _ _ _ => rfl
  rw [compress_file_zip_none]
  simp only [List.length_replicate]
  rw [if_pos (by norm_num [CHUNK_SIZE]), h1, h2, hcum, hcum]
  simp only [List.length_replicate]
  refine map_head_dup_not_nodup _ _ _ _ ?_
  norm_num [CHUNK_SIZE]

/-- C7 (amended): after each chunk the reported percentage is
`min(bytesProcessed * 100 / totalBytes, 100)` — the floor of the
fraction, clamped to 100 — but the callback is invoked for every chunk,
whether or not the integer percentage changed: the event list is exactly
the running byte totals mapped through that formula. -/
theorem percent_formula_each_chunk (fp : String) (data : Bytes) (h : data ≠ []) :
    (compress_file_zip fp data none).events
      = (cumLens 0 (chunksOf CHUNK_SIZE data)).map
          (fun s => min (s * 100 / data.length) 100) := by
  rw [compress_file_zip_none]
  have hlen : 0 < data.length := by cases data <;> simp_all
  simp [hlen]

/-- C7 (witness): the amended statement at a concrete one-byte input. -/
theorem percent_formula_each_chunk_w :
    (compress_file_zip "temp_files/1/a.txt" [5] none).events
      = (cumLens 0 (chunksOf CHUNK_SIZE [5])).map
          (fun s => min (s * 100 / ([5] : Bytes).length) 100) :=
  percent_formula_each_chunk "temp_files/1/a.txt" [5] (by simp)

/-- C2 (counterexample): `handle_document` checks the cap but the
increment happens later, inside `compress_callback`, with no re-check:
six submissions can each pass the capacity check while the counter is
still 0, and once all six compressions start, `concurrent_tasks`
reaches 6 — above `MAX_CONCURRENT_TASKS = 5`. -/
theorem cap_exceeded_interleaving :
    Reachable
      (⟨6, [OpPhase.running, .running, .running, .running, .running, .running]⟩ : BotState) ∧
    ¬ (⟨6, [OpPhase.running, .running, .running, .running, .running, .running]⟩
        : BotState).concurrent_tasks ≤ (MAX_CONCURRENT_TASKS : Int) := by
  constructor
  · have t0 : Reachable initState := Relation.ReflTransGen.refl
    have t1 : Reachable ⟨0, [.admitted]⟩ :=
      Relation.ReflTransGen.tail t0 (BotStep.submitOk initState (by decide))
    have t2 : Reachable ⟨0, [.admitted, .admitted]⟩ :=
      Relation.ReflTransGen.tail t1 (BotStep.submitOk ⟨0, [.admitted]⟩ (by decide))
    have t3 : Reachable ⟨0, [.admitted, .admitted, .admitted]⟩ :=
      Relation.ReflTransGen.tail t2 (BotStep.submitOk ⟨0, [.admitted, .admitted]⟩ (by decide))
    have t4 : Reachable ⟨0, [.admitted, .admitted, .admitted, .admitted]⟩ :=
      Relation.ReflTransGen.tail t3
        (BotStep.submitOk ⟨0, [.admitted, .admitted, .admitted]⟩ (by decide))
    have t5 : Reachable ⟨0, [.admitted, .admitted, .admitted, .admitted, .admitted]⟩ :=
      Relation.ReflTransGen.tail t4
        (BotStep.submitOk ⟨0, [.admitted, .admitted, .admitted, .admitted]⟩ (by decide))
    have t6 : Reachable ⟨0, [.admitted, .admitted, .admitted, .admitted, .admitted, .admitted]⟩ :=
      Relation.ReflTransGen.tail t5
        (BotStep.submitOk ⟨0, [.admitted, .admitted, .admitted, .admitted, .admitted]⟩ (by decide))
    have b1 : Reachable ⟨1, [.running, .admitted, .admitted, .admitted, .admitted, .admitted]⟩ :=
      Relation.ReflTransGen.tail t6
        (BotStep.beginCb ⟨0, [.admitted, .admitted, .admitted, .admitted, .admitted, .admitted]⟩
          0 (by decide))
    have b2 : Reachable ⟨2, [.running, .running, .admitted, .admitted, .admitted, .admitted]⟩ :=
      Relation.ReflTransGen.tail b1
        (BotStep.beginCb ⟨1, [.running, .admitted, .admitted, .admitted, .admitted, .admitted]⟩
          1 (by decide))
    have b3 : Reachable ⟨3, [.running, .running, .running, .admitted, .admitted, .admitted]⟩ :=
      Relation.ReflTransGen.tail b2
        (BotStep.beginCb ⟨2, [.running, .running, .admitted, .admitted, .admitted, .admitted]⟩
          2 (by decide))
    have b4 : Reachable ⟨4, [.running, .running, .running, .running, .admitted, .admitted]⟩ :=
      Relation.ReflTransGen.tail b3
        (BotStep.beginCb ⟨3, [.running, .running, .running, .admitted, .admitted, .admitted]⟩
          3 (by decide))
    have b5 : Reachable ⟨5, [.running, .running, .running, .running, .running, .admitted]⟩ :=
      Relation.ReflTransGen.tail b4
        (BotStep.beginCb ⟨4, [.running, .running, .running, .running, .admitted, .admitted]⟩
          4 (by decide))
    exact Relation.ReflTransGen.tail b5
      (BotStep.beginCb ⟨5, [.running, .running, .running, .running, .running, .admitted]⟩
        5 (by decide))
  · decide

/-- C2 (amended): the counter never goes negative — it always equals the
number of operations between their increment and their decrement — and
every operation is decremented exactly once, by the step that moves it
from running to a terminal outcome, after which it never steps again; but
the admission check and the increment are not atomic, so the cap can be
exceeded (see the interleaving above). -/
theorem counter_nonneg_release_once :
    (∀ s, Reachable s →
      0 ≤ s.concurrent_tasks ∧ s.concurrent_tasks = runningCount s.ops) ∧
    (∀ (s s' : BotState) (i : Nat) (o : CbOutcome),
      BotStep s s' → s.ops[i]? = some (OpPhase.finished o) →
      s'.ops[i]? = some (OpPhase.finished o)) ∧
    (∀ (s s' : BotState), BotStep s s' → s'.concurrent_tasks < s.concurrent_tasks →
      s'.concurrent_tasks = s.concurrent_tasks - 1 ∧
      ∃ (i : Nat) (o : CbOutcome),
        s.ops[i]? = some OpPhase.running ∧ s'.ops = s.ops.set i (OpPhase.finished o) ∧
        s'.ops[i]? = some (OpPhase.finished o)) := by
  refine ⟨?_, ?_, ?_⟩
  · intro s hs
    induction hs with
    | refl => simp [initState, runningCount]
    | tail _ hstep ih =>
      obtain ⟨ihn, ihe⟩ := ih
      cases hstep with
      | submitOk ht =>
        rw [runningCount_append_admitted]
        exact ⟨ihn, ihe⟩
      | beginCb i hti =>
        dsimp only
        rw [runningCount_set_running _ i hti]
        constructor
        · omega
        · omega
      | endCb i o hti =>
        obtain ⟨heq, hge⟩ := runningCount_set_finished _ i o hti
        dsimp only
        rw [heq]
        constructor
        · omega
        · omega
  · intro s s' i o hstep hfin
    cases hstep with
    | submitOk ht =>
      have hi : i < s.ops.length := by
        by_contra hni
        rw [List.getElem?_eq_none (by omega)] at hfin
        cases hfin
      dsimp only
      rw [List.getElem?_append_left hi]
      exact hfin
    | beginCb j htj =>
      have hne : j ≠ i := by
        intro he
        subst he
        rw [htj] at hfin
        cases hfin
      dsimp only
      rw [List.getElem?_set_ne hne]
      exact hfin
    | endCb j o2 htj =>
      by_cases hji : j = i
      · subst hji
        rw [htj] at hfin
        cases hfin
      · dsimp only
        rw [List.getElem?_set_ne hji]
        exact hfin
  · intro s s' hstep hlt
    cases hstep with
    | submitOk ht => exact absurd hlt (lt_irrefl _)
    | beginCb i hti => exact absurd hlt (by dsimp only; omega)
    | endCb i o hti =>
      obtain ⟨hlen, _⟩ := List.getElem?_eq_some.mp hti
      exact ⟨rfl, i, o, hti, rfl, List.getElem?_set_eq_of_lt (.finished o) hlen⟩

/-- C2 (witness): the amended statement exercised at the initial state
and at a concrete decrement step. -/
theorem counter_nonneg_release_once_w :
    (0 ≤ initState.concurrent_tasks ∧
      initState.concurrent_tasks = runningCount initState.ops) ∧
    ({ concurrent_tasks := 0,
       ops := [OpPhase.finished .success, OpPhase.finished .cancelled] }
        : BotState).ops[0]? = some (OpPhase.finished .success) := by
  constructor
  · exact counter_nonneg_release_once.1 initState Relation.ReflTransGen.refl
  · exact counter_nonneg_release_once.2.1
      ⟨1, [OpPhase.finished .success, OpPhase.running]⟩
      ⟨0, [OpPhase.finished .success, OpPhase.finished .cancelled]⟩
      0 .success
      (BotStep.endCb ⟨1, [OpPhase.finished .success, OpPhase.running]⟩ 1 .cancelled (by decide))
      (by decide)

/-- C3 (counterexample): signaling cancellation is claimed not to delete
any file itself, but `cmd_cancel` cancels the live task and immediately
removes every recorded temporary file that exists. -/
theorem cancel_command_deletes_files :
    (cmd_cancel (some ⟨some ⟨false⟩, ["temp_files/1/a.txt"], none, none, none⟩)
      ["temp_files/1/a.txt"]).signalledCancel = true ∧
    (cmd_cancel (some ⟨some ⟨false⟩, ["temp_files/1/a.txt"], none, none, none⟩)
      ["temp_files/1/a.txt"]).deleted = ["temp_files/1/a.txt"] ∧
    (cmd_cancel (some ⟨some ⟨false⟩, ["temp_files/1/a.txt"], none, none, none⟩)
      ["temp_files/1/a.txt"]).deleted ≠ [] := by
  refine ⟨rfl, by decide, by decide⟩

/-- C3 (amended): temporary files are deleted in two places, neither a
uniform guaranteed-cleanup block: the success path of
`compress_callback` deletes the recorded files (plus the output) and
clears the entry, while its cancellation and error paths delete nothing
and leave the entry in place; and `/cancel` itself deletes the recorded
files right after signaling.  Only the counter decrement is uniform
across exit paths. -/
theorem cleanup_per_exit_path (e : UserEntry) (out : String) (disk : List String)
    (tf : List String) (h : TaskHandle) :
    (compress_callback_exit e out disk .success).deleted
      = (e.temp_files ++ [out]).filter (fun p => disk.contains p) ∧
    (compress_callback_exit e out disk .success).entryAfter = some {} ∧
    (compress_callback_exit e out disk .cancelled).deleted = [] ∧
    (compress_callback_exit e out disk .error).deleted = [] ∧
    (compress_callback_exit e out disk .cancelled).entryAfter = some e ∧
    (compress_callback_exit e out disk .error).entryAfter = some e ∧
    (∀ o, (compress_callback_exit e out disk o).countDelta = -1) ∧
    (cmd_cancel (some { task := some h, temp_files := tf }) disk).deleted
      = tf.filter (fun p => disk.contains p) ∧
    (cmd_cancel (some { task := some h, temp_files := tf }) disk).signalledCancel
      = !h.done := by
  refine ⟨rfl, rfl, rfl, rfl, rfl, rfl, fun o => ?_, rfl, rfl⟩
  cases o <;> rfl

/-- C9: a second submission by a requester whose stored task is live is
rejected on the spot — it is not queued — while the decision for any
requester depends only on that requester's own entry and the global
count, and a requester with no live task is accepted whenever capacity
remains. -/
theorem second_submission_rejected (tasks tasks2 : Nat → Option UserEntry)
    (u v : Nat) (count : Nat) :
    (userBusy (tasks u) = true →
      handleDocumentDecision tasks u count = DocDecision.rejectedAlreadyRunning) ∧
    (tasks2 v = tasks v →
      handleDocumentDecision tasks2 v count = handleDocumentDecision tasks v count) ∧
    (userBusy (tasks v) = false → count < MAX_CONCURRENT_TASKS →
      handleDocumentDecision tasks v count = DocDecision.accepted) := by
  refine ⟨?_, ?_, ?_⟩
  · intro hb
    simp [handleDocumentDecision, hb]
  · intro he
    simp [handleDocumentDecision, he]
  · intro hb hc
    simp only [handleDocumentDecision, hb, Bool.false_eq_true, if_false]
    rw [if_neg (Nat.not_le.mpr hc)]

/-- C9 (witness): with requester 1 holding a live task, a submission by
requester 1 is rejected as already running while requester 2 is
accepted. -/
theorem second_submission_rejected_w :
    (handleDocumentDecision
        (fun w => if w = 1 then some { task := some { done := false } } else none) 1 0
      = DocDecision.rejectedAlreadyRunning) ∧
    (handleDocumentDecision
        (fun w => if w = 1 then some { task := some { done := false } } else none) 2 0
      = DocDecision.accepted) := by
  obtain ⟨h1, _, h3⟩ := second_submission_rejected
    (fun w => if w = 1 then some { task := some { done := false } } else none)
    (fun w => if w = 1 then some { task := some { done := false } } else none)
    1 2 0
  exact ⟨h1 rfl, h3 rfl (by decide)⟩

/-- C8 (counterexample): two distinct operations on inputs sharing a
basename collide: the output archive and the temporary chunk file are
placed directly in the shared `TEMP_DIR`, keyed only by the input's
basename, not in a per-operation scratch directory. -/
theorem distinct_operations_share_paths :
    "temp_files/1/report.txt" ≠ "temp_files/2/report.txt" ∧
    compressOutputPath "temp_files/1/report.txt" "zip"
      = compressOutputPath "temp_files/2/report.txt" "zip" ∧
    tempChunkPath "temp_files/1/report.txt"
      = tempChunkPath "temp_files/2/report.txt" := by
  refine ⟨by decide, by decide, by decide⟩

/-- C8 (amended): the output path is derived deterministically from
`basename(inputPath)` plus the format's fixed extension, and the chunk
path from the basename alone — both depend on nothing else, so any two
inputs with equal basenames map to the same shared paths — and the zip
output path always carries the `.zip` extension. -/
theorem paths_determined_by_basename (p1 p2 fmt : String)
    (h : basename p1 = basename p2) :
    (compressOutputPath p1 fmt = compressOutputPath p2 fmt ∧
     tempChunkPath p1 = tempChunkPath p2) ∧
    strEndsWith (compressOutputPath p1 "zip") ".zip" := by
  constructor
  · constructor
    · unfold compressOutputPath
      rw [h]
    · unfold tempChunkPath
      rw [h]
  · have hnoslash : ∀ c ∈ stemChars (basenameChars p1.data), c ≠ '/' := by
      intro c hc
      exact basenameChars_no_slash p1.data c (stemChars_subset _ c hc)
    have hhead :
        ¬ ((stemChars (basenameChars p1.data) ++ ".zip".data).head? = some '/') := by
      cases hS : stemChars (basenameChars p1.data) with
      | nil => decide
      | cons c t =>
        simp only [List.cons_append, List.head?_cons, Option.some.injEq]
        have hcm : c ∈ stemChars (basenameChars p1.data) := by
          rw [hS]; exact List.mem_cons_self _ _
        exact hnoslash c hcm
    unfold strEndsWith compressOutputPath pathJoin
    show ".zip".data <:+
      pathJoinChars TEMP_DIR.data ((splitextStem (basename p1) ++ formatExt "zip").data)
    have hf : formatExt "zip" = ".zip" := rfl
    have hdata : (splitextStem (basename p1) ++ formatExt "zip").data
        = stemChars (basenameChars p1.data) ++ ".zip".data := by
      rw [String.data_append, hf]
      rfl
    rw [hdata]
    unfold pathJoinChars
    rw [if_neg hhead, if_neg (by decide), if_neg (by decide)]
    have hr : ('/' : Char) :: (stemChars (basenameChars p1.data) ++ ".zip".data)
        = ('/' :: stemChars (basenameChars p1.data)) ++ ".zip".data := rfl
    rw [hr, ← List.append_assoc]
    exact List.suffix_append _ _

/-- C8 (witness): the amended statement at two concrete inputs in
different per-user directories but with the same basename. -/
theorem paths_determined_by_basename_w :
    (compressOutputPath "temp_files/1/report.txt" "zip"
        = compressOutputPath "temp_files/2/report.txt" "zip" ∧
     tempChunkPath "temp_files/1/report.txt"
        = tempChunkPath "temp_files/2/report.txt") ∧
    strEndsWith (compressOutputPath "temp_files/1/report.txt" "zip") ".zip" :=
  paths_determined_by_basename "temp_files/1/report.txt" "temp_files/2/report.txt"
    "zip" (by decide)

/-! ### Lemmas about message formatting -/

theorem formatRun_raises_of_auto :
    ∀ (t : Template) (i : Nat), (∃ inner, Piece.auto inner ∈ t) →
      formatRun [] t i = PyRes.raises PyExc.indexError := by
  intro t
  induction t with
  | nil =>
    intro i h
    obtain ⟨inner, hmem⟩ := h
    simp at hmem
  | cons pc rest ih =>
    intro i h
    obtain ⟨inner, hmem⟩ := h
    cases pc with
    | lit s =>
      have hrest : Piece.auto inner ∈ rest := by
        rcases List.mem_cons.mp hmem with h1 | h2
        · simp at h1
        · exact h2
      simp only [formatRun]
      rw [ih i ⟨inner, hrest⟩]
    | auto inner2 => rfl

theorem formatRun_error_index :
    ∀ (t : Template) (i : Nat) (e : PyExc),
      formatRun [] t i = PyRes.raises e → e = PyExc.indexError := by
  intro t
  induction t with
  | nil =>
    intro i e h
    simp [formatRun] at h
  | cons pc rest ih =>
    intro i e h
    cases pc with
    | lit s =>
      simp only [formatRun] at h
      cases hres : formatRun [] rest i with
      | str r => rw [hres] at h; simp at h
      | raises e2 =>
        rw [hres] at h
        simp only [PyRes.raises.injEq] at h
        subst h
        exact ih i e2 hres
    | auto inner =>
      simp only [formatRun, List.getElem?_nil, PyRes.raises.injEq] at h
      exact h.symm

theorem formatRun_all_lit :
    ∀ (t : Template) (i : Nat) (posArgs : List String),
      (∀ inner, Piece.auto inner ∉ t) →
      formatRun posArgs t i = PyRes.str (renderTemplate t) := by
  intro t
  induction t with
  | nil => intro i pos h; rfl
  | cons pc rest ih =>
    intro i pos h
    cases pc with
    | lit s =>
      simp only [formatRun, renderTemplate]
      rw [ih i pos (fun inner hmem => h inner (List.mem_cons_of_mem _ hmem))]
    | auto inner => exact absurd (List.mem_cons_self _ _) (h inner)

theorem lookup_MESSAGES (lang : String) :
    MESSAGES.lookup lang = none ∨ MESSAGES.lookup lang = some MESSAGES_EN ∨
      MESSAGES.lookup lang = some MESSAGES_FA := by
  by_cases h1 : lang = "en"
  · subst h1; right; left; rfl
  · by_cases h2 : lang = "fa"
    · subst h2; right; right; rfl
    · left
      have b1 : (lang == "en") = false := beq_eq_false_iff_ne.mpr h1
      have b2 : (lang == "fa") = false := beq_eq_false_iff_ne.mpr h2
      simp [MESSAGES, List.lookup, b1, b2]

theorem resolvedMessage_unknown_key (key lang : String)
    (hen : MESSAGES_EN.lookup key = none) (hfa : MESSAGES_FA.lookup key = none) :
    resolvedMessage key lang = [Piece.lit key] := by
  unfold resolvedMessage
  have he : MESSAGES.lookup "en" = some MESSAGES_EN := rfl
  rcases lookup_MESSAGES lang with h | h | h <;> simp [h, hen, hfa, he]

/-- C10 (counterexample): `get_message` is claimed never to raise, but
every built-in template uses positional replacement fields while the
handlers pass only keyword arguments, so `str.format` raises
`IndexError`, which the `except (KeyError, ValueError)` clause does not
catch. -/
theorem get_message_raises_index_error :
    get_message "compressing" "en" [("format", "ZIP"), ("progress", "50")]
      = PyRes.raises PyExc.indexError := by
  decide

/-- C10 (amended): an unknown language falls back to English and an
unknown key resolves to the key itself; a call without format arguments
always returns a string; `KeyError` and `ValueError` never escape (they
would be caught, and the templates contain no named fields); but a call
with format arguments whose resolved template contains a replacement
field raises `IndexError`, which propagates uncaught. -/
theorem get_message_fallback_behavior (key lang : String)
    (kwargs : List (String × String)) :
    (MESSAGES.lookup lang = none →
      get_message key lang kwargs = get_message key "en" kwargs) ∧
    (MESSAGES_EN.lookup key = none → MESSAGES_FA.lookup key = none →
      get_message key lang kwargs = PyRes.str (renderTemplate [Piece.lit key])) ∧
    (kwargs = [] → ∃ s, get_message key lang kwargs = PyRes.str s) ∧
    (kwargs ≠ [] → (∃ inner, Piece.auto inner ∈ resolvedMessage key lang) →
      get_message key lang kwargs = PyRes.raises PyExc.indexError) ∧
    (get_message key lang kwargs ≠ PyRes.raises PyExc.keyError ∧
     get_message key lang kwargs ≠ PyRes.raises PyExc.valueError) := by
  refine ⟨?_, ?_, ?_, ?_, ?_⟩
  · intro hnone
    simp [get_message, resolvedMessage, hnone]
  · intro hen hfa
    have hres := resolvedMessage_unknown_key key lang hen hfa
    unfold get_message
    rw [hres]
    by_cases hk : kwargs.isEmpty <;> simp [hk, formatRun, renderTemplate]
  · intro hk
    subst hk
    exact ⟨_, rfl⟩
  · intro hkne hauto
    have hfr := formatRun_raises_of_auto (resolvedMessage key lang) 0 hauto
    have hke : kwargs.isEmpty = false := by
      cases kwargs with
      | nil => exact absurd rfl hkne
      | cons a l => rfl
    simp [get_message, hke, hfr]
  · have hcases : ∀ e : PyExc, get_message key lang kwargs ≠ PyRes.raises PyExc.keyError ∧
        get_message key lang kwargs ≠ PyRes.raises PyExc.valueError := fun _ => by
      unfold get_message
      by_cases hk : kwargs.isEmpty
      · simp [hk]
      · simp only [hk, if_false, Bool.false_eq_true]
        cases hfr : formatRun [] (resolvedMessage key lang) 0 with
        | str r => simp
        | raises e =>
          have he := formatRun_error_index (resolvedMessage key lang) 0 e hfr
          subst he
          simp
    exact hcases PyExc.indexError

/-- C10 (witness): the amended statement exercised at a concrete unknown
language, a concrete unknown key, and a concrete parameterized call. -/
theorem get_message_fallback_behavior_w :
    (get_message "hello" "de" [] = get_message "hello" "en" []) ∧
    (get_message "hello" "en" [] = PyRes.str (renderTemplate [Piece.lit "hello"])) ∧
    (∃ s, get_message "start" "fa" [] = PyRes.str s) ∧
    (get_message "extracting" "fa" [("progress", "40")]
      = PyRes.raises PyExc.indexError) := by
  refine ⟨?_, ?_, ?_, ?_⟩
  · exact (get_message_fallback_behavior "hello" "de" []).1 (by decide)
  · exact (get_message_fallback_behavior "hello" "en" []).2.1 (by decide) (by decide)
  · exact (get_message_fallback_behavior "start" "fa" []).2.2.1 rfl
  · exact (get_message_fallback_behavior "extracting" "fa" [("progress", "40")]).2.2.2.1
      (by decide) ⟨"", by decide⟩

end Zipper
